import Mathlib

/-!
Verification of the Cykel vault codec and cycle-prediction engine.

The development shallowly embeds the two algorithmic cores of the repository:

* the crypto module (PBKDF2 key derivation + AES-256-GCM envelope,
  `crypto.js`): byte strings become `List ℕ`, the envelope layout
  `salt (32) || iv (12) || ciphertext` is kept exactly, and the two
  platform primitives (PBKDF2 via Web Crypto, AES-GCM via Web Crypto),
  which are not part of the repository, are modelled as an ideal key
  derivation function and an ideal authenticated cipher;
* the prediction engine (`prediction.js`): dates become `ℤ` (day numbers;
  the source stores ISO `YYYY-MM-DD` strings whose lexicographic order and
  day arithmetic coincide with the integer model), JS number arithmetic on
  cycle statistics becomes exact `ℚ`/`ℝ` arithmetic, and `Math.round`
  becomes `round` (both are `⌊x + 1/2⌋`).

The file is organised as definitions first (crypto module, then the
prediction engine), then theorems.
-/

/-! # Crypto module (src crypto.js)

Constants from the source: `SALT_LEN = 32`, `IV_LEN = 12`,
`PBKDF2_ITERATIONS = 600000`, `MAGIC = 'CYKEL_V1'` (ASCII bytes). -/

def SALT_LEN : ℕ := 32

def IV_LEN : ℕ := 12

def PBKDF2_ROUNDS : ℕ := 600000

/-- The fixed 8-byte magic marker `'CYKEL_V1'` as ASCII byte values. -/
def MAGIC : List ℕ := [67, 89, 75, 69, 76, 95, 86, 49]

/-- An injective encoding of a list of naturals into one natural, used to
build the ideal-cipher model of AES-GCM. -/
def encodeList : List ℕ → ℕ
  | [] => 0
  | x :: xs => Nat.pair x (encodeList xs) + 1

/-- Left inverse of `encodeList`. -/
def decodeList : ℕ → List ℕ
  | 0 => []
  | n + 1 => (Nat.unpair n).1 :: decodeList (Nat.unpair n).2
termination_by n => n
decreasing_by exact Nat.lt_succ_of_le (Nat.unpair_right_le n)

/-- An injective encoding of a string into a natural. -/
def encodeStr (s : String) : ℕ := encodeList (s.data.map Char.toNat)

/-- Left inverse of `encodeStr`. -/
def decodeStr (n : ℕ) : String := String.mk ((decodeList n).map Char.ofNat)

/-- A derived symmetric key.  `deriveKey` below (the model of PBKDF2)
keeps the passphrase and salt, which makes the ideal KDF injective. -/
def CipherKey : Type := String × List ℕ

instance : DecidableEq CipherKey := by unfold CipherKey; infer_instance

/-- Modelled from the spec: Key Derivation (`derive(passphrase, salt) -> key`,
PBKDF2-SHA256 with 600000 iterations via Web Crypto in the source) is a
platform primitive, not code of this repository.  It is modelled as an ideal
deterministic KDF: distinct passphrases (or salts) give distinct keys. -/
def deriveKey (passphrase : String) (salt : List ℕ) : CipherKey := (passphrase, salt)

/-- An injective encoding of (key, iv, payload) into one natural: the
"tag" content of the ideal cipher. -/
def encodeAead (key : CipherKey) (iv payload : List ℕ) : ℕ :=
  Nat.pair (Nat.pair (encodeStr key.1) (encodeList key.2))
    (Nat.pair (encodeList iv) (encodeList payload))

/-- Modelled from the spec: AES-256-GCM encryption (`crypto.subtle.encrypt`)
is a platform primitive, not code of this repository.  It is modelled as an
ideal authenticated cipher: the ciphertext is `payload.length + 16` bytes
long (the 16-byte GCM authentication tag is appended), and the tag content
determines key, nonce and payload exactly. -/
def aeadEncrypt (key : CipherKey) (iv payload : List ℕ) : List ℕ :=
  encodeAead key iv payload :: List.replicate (payload.length + 15) 0

/-- Modelled from the spec: AES-256-GCM decryption (`crypto.subtle.decrypt`)
as an ideal authenticated cipher: it succeeds exactly on a ciphertext
produced with the same key and nonce, and then returns the original
payload; on every other input it fails (tag mismatch). -/
def aeadDecrypt (key : CipherKey) (iv ct : List ℕ) : Option (List ℕ) :=
  match ct with
  | [] => none
  | t :: rest =>
      let k := decodeStr (Nat.unpair (Nat.unpair t).1).1
      let ks := decodeList (Nat.unpair (Nat.unpair t).1).2
      let ivd := decodeList (Nat.unpair (Nat.unpair t).2).1
      let p := decodeList (Nat.unpair (Nat.unpair t).2).2
      if (k, ks) = key ∧ ivd = iv ∧ rest.length = p.length + 15 then some p else none

/-- Error kinds of the vault codec (§7 of the spec): the source throws
`'Wrong passphrase'` and `'Invalid data format'` respectively. -/
inductive CryptoError
  | wrongPassphrase
  | corruptData
deriving DecidableEq

/-- Translation of `encrypt(passphrase, plaintext)` from the source crypto
module.  The random salt (32 bytes) and iv (12 bytes) drawn by
`crypto.getRandomValues` are made explicit arguments.  The magic marker is
prepended to the plaintext before authenticated encryption, and the result
is `salt || iv || ciphertext`. -/
def encrypt (passphrase : String) (plaintext salt iv : List ℕ) : List ℕ :=
  salt ++ iv ++ aeadEncrypt (deriveKey passphrase salt) iv (MAGIC ++ plaintext)

/-- Translation of `decrypt(passphrase, encrypted)` from the source crypto
module: length guard first (`CorruptData`), then split at fixed offsets,
derive the key, attempt authenticated decryption (any failure is
`WrongPassphrase`), then compare the leading bytes against the magic
marker (mismatch is also `WrongPassphrase`) and strip the marker. -/
def decrypt (passphrase : String) (encrypted : List ℕ) : Except CryptoError (List ℕ) :=
  if encrypted.length < SALT_LEN + IV_LEN + MAGIC.length then
    Except.error CryptoError.corruptData
  else
    let salt := encrypted.take SALT_LEN
    let iv := (encrypted.drop SALT_LEN).take IV_LEN
    let ct := encrypted.drop (SALT_LEN + IV_LEN)
    match aeadDecrypt (deriveKey passphrase salt) iv ct with
    | none => Except.error CryptoError.wrongPassphrase
    | some decrypted =>
        if decrypted.take MAGIC.length = MAGIC then
          Except.ok (decrypted.drop MAGIC.length)
        else Except.error CryptoError.wrongPassphrase

namespace Cykel

/-! # Data model of the prediction engine (src prediction.js)

Dates are modelled as integer day numbers: the source stores ISO
`YYYY-MM-DD` strings, parses them to local-midnight `Date`s, compares
them lexicographically (which for ISO strings is chronological order) and
measures exact day differences, so the string/calendar layer is a
bijection onto `ℤ` that the embedding applies once and for all.
`dayNumber` below realises that bijection for the concrete dates used in
the spec's examples. -/

/-- Gregorian leap-year test. -/
def isLeapYear (y : ℕ) : Bool := y % 4 == 0 && (y % 100 != 0 || y % 400 == 0)

/-- Length of month `m` (1-based) of year `y`. -/
def monthLength (y m : ℕ) : ℕ :=
  if m = 2 then (if isLeapYear y then 29 else 28)
  else if m = 4 ∨ m = 6 ∨ m = 9 ∨ m = 11 then 30 else 31

/-- Day number of the calendar date `y-m-d` (days since a fixed epoch),
the integer image of an ISO `YYYY-MM-DD` date string. -/
def dayNumber (y m d : ℕ) : ℤ :=
  ((365 * (y - 1) + ((y - 1) / 4 + (y - 1) / 400 - (y - 1) / 100)
    + ((List.range (m - 1)).map (fun i => monthLength y (i + 1))).sum + d : ℕ) : ℤ)

/-- Flow level of a day log; the source uses the strings
`'None' | 'Light' | 'Medium' | 'Heavy'`. -/
inductive FlowLevel
  | none
  | light
  | medium
  | heavy
deriving DecidableEq

/-- A day log entry (`{date, flow_level, notes}`). -/
structure DayLog where
  date : ℤ
  flow_level : FlowLevel
  notes : String
deriving DecidableEq

/-- A menstrual cycle; `end_date = none` is an open (in-progress) cycle. -/
structure Cycle where
  start_date : ℤ
  end_date : Option ℤ
deriving DecidableEq

/-- Output of `predict`: `{predicted_start, predicted_end, confidence}`. -/
structure Prediction where
  predicted_start : ℤ
  predicted_end : ℤ
  confidence : ℝ

/-- Output of `fertilityWindow`. -/
structure FertilityWindow where
  fertile_start : ℤ
  fertile_end : ℤ
  ovulation_day : ℤ
  peak_start : ℤ
  peak_end : ℤ
deriving DecidableEq

/-- Translation of `mean(arr)` from the source: `0` on the empty list,
otherwise sum divided by length (JS numbers become exact `ℚ`). -/
def mean (arr : List ℚ) : ℚ := if arr.length = 0 then 0 else arr.sum / arr.length

/-- Translation of `stdDev(arr)` from the source: `0` for fewer than two
samples, otherwise the square root of the sample variance
(`Σ (v - avg)² / (n - 1)`, the `n − 1` divisor). -/
noncomputable def stdDev (arr : List ℚ) : ℝ :=
  if arr.length < 2 then 0
  else Real.sqrt (((arr.map (fun v => (v - mean arr) ^ 2)).sum / ((arr.length : ℚ) - 1) : ℚ))

/-! # Cycle reconstructor (`rebuildCycles`) -/

/-- The ascending sort of the flow dates: translation of
`dayLogs.filter(l => l.flow_level !== 'None').map(l => l.date).sort()`
(lexicographic sort of ISO date strings = ascending day numbers; JS
`Array.prototype.sort` is stable, as is insertion sort). -/
def flowDateList (dayLogs : List DayLog) : List ℤ :=
  List.insertionSort (fun a b => a ≤ b)
    ((dayLogs.filter (fun l => l.flow_level ≠ FlowLevel.none)).map DayLog.date)

/-- Translation of `[...new Set(flowDays)]`: deduplication keeping the
first occurrence, in insertion order, like a JS `Set`. -/
def jsSetDedupAux : List ℤ → List ℤ → List ℤ
  | [], _ => []
  | x :: xs, seen => if x ∈ seen then jsSetDedupAux xs seen else x :: jsSetDedupAux xs (x :: seen)

/-- The deduplicated sorted flow dates (`unique` in the source). -/
def flowDates (dayLogs : List DayLog) : List ℤ := jsSetDedupAux (flowDateList dayLogs) []

/-- Translation of the `for` loop of `rebuildCycles` together with the
final push: `start`/`e` are the mutable `start`/`end` variables, `acc`
the `cycles` array.  A new date within 2 days (`gap <= 2`, where
`gap = daysBetween(end, date) = date - end`) extends the current run;
otherwise the run is closed and a new one starts.  The final run is
pushed with `end_date = null` iff `today - e <= 2` (`daysAgo <= 2`). -/
def rebuildLoop (today : ℤ) : List ℤ → ℤ → ℤ → List Cycle → List Cycle
  | [], start, e, acc => acc ++ [⟨start, if today - e ≤ 2 then none else some e⟩]
  | x :: xs, start, e, acc =>
      if x - e ≤ 2 then rebuildLoop today xs start x acc
      else rebuildLoop today xs x x (acc ++ [⟨start, some e⟩])

/-- Translation of `rebuildCycles(dayLogs)`.  The source reads "today"
from the system clock (`fmtDate(new Date())`); the embedding makes it an
explicit argument. -/
def rebuildCycles (dayLogs : List DayLog) (today : ℤ) : List Cycle :=
  match flowDates dayLogs with
  | [] => []
  | d :: rest => rebuildLoop today rest d d []

/-- Following the spec's words (§4.4 step 2): greedily merge the sorted
distinct flow dates into runs, a new flow-date extending the current run
iff it is within 2 days (inclusive) of the run's current end date.
`specRunsAux xs s e` processes remaining dates `xs` with current run
`(s, e)`. -/
def specRunsAux : List ℤ → ℤ → ℤ → List (ℤ × ℤ)
  | [], s, e => [(s, e)]
  | x :: xs, s, e =>
      if x - e ≤ 2 then specRunsAux xs s x else (s, e) :: specRunsAux xs x x

/-- Following the spec's words: the list of runs of a sorted list of
distinct flow dates. -/
def specRuns : List ℤ → List (ℤ × ℤ)
  | [] => []
  | d :: ds => specRunsAux ds d d

/-- Following the spec's words (§4.4 steps 3–4): each run becomes a
closed cycle, except the final run, which is left open iff its end date
is within 2 days of today (`today - run end ≤ 2`). -/
def specCloseRuns (today : ℤ) : List (ℤ × ℤ) → List Cycle
  | [] => []
  | [r] => [⟨r.1, if today - r.2 ≤ 2 then none else some r.2⟩]
  | r :: rest => ⟨r.1, some r.2⟩ :: specCloseRuns today rest

/-! # Prediction engine (`predict`, `fertilityWindow`) -/

/-- The closed cycles of an input, in input order: translation of
`cycles.filter(c => c.end_date != null)`. -/
def closedCycles (cycles : List Cycle) : List Cycle :=
  cycles.filter (fun c => c.end_date.isSome)

/-- Ordering used by `predict`: the source sorts by
`a.start_date.localeCompare(b.start_date)`, i.e. ascending start date. -/
def startLE (a b : Cycle) : Prop := a.start_date ≤ b.start_date

instance : DecidableRel startLE := fun a b =>
  inferInstanceAs (Decidable (a.start_date ≤ b.start_date))

instance : IsTotal Cycle startLE := ⟨fun a b => le_total a.start_date b.start_date⟩

instance : IsTrans Cycle startLE := ⟨fun _ _ _ hab hbc => le_trans hab hbc⟩

/-- `completed` in the source: closed cycles sorted ascending by start
date (stable sort, like JS `Array.prototype.sort`). -/
def completedCycles (cycles : List Cycle) : List Cycle :=
  List.insertionSort startLE (closedCycles cycles)

/-- `recent` in the source: `completed.slice(-6)`, the up-to-6 most
recent completed cycles. -/
def recentCycles (cycles : List Cycle) : List Cycle :=
  (completedCycles cycles).drop ((completedCycles cycles).length - 6)

/-- Differences between consecutive entries of a list, as in the
source's `for` loop pushing `daysBetween(recent[i-1].start_date,
recent[i].start_date)`. -/
def consecutiveDiffs (l : List ℤ) : List ℤ := (l.zip l.tail).map (fun q => q.2 - q.1)

/-- `cycleLengths` in the source: day differences between consecutive
start dates of the sample window. -/
def cycleLengthsOf (cycles : List Cycle) : List ℤ :=
  consecutiveDiffs ((recentCycles cycles).map Cycle.start_date)

/-- `periodLengths` in the source: `daysBetween(start, end) + 1 =
(end - start) + 1` per sampled cycle.  Every sampled cycle is closed, so
the `getD` default is never used. -/
def periodLengthsOf (cycles : List Cycle) : List ℤ :=
  (recentCycles cycles).map (fun c => c.end_date.getD c.start_date - c.start_date + 1)

/-- Translation of `predict(cycles)`: require at least two completed
cycles and at least one consecutive start-date difference, then forecast
`predicted_start = last completed start + round(mean cycle length)`,
`predicted_end = predicted_start + max(0, round(mean period length) - 1)`
(mean period length defaulting to 5 on an empty sample) and
`confidence = max(0.1, min(0.95, 1 - stdDev/mean))`. -/
noncomputable def predict (cycles : List Cycle) : Option Prediction :=
  if (completedCycles cycles).length < 2 then none
  else if (cycleLengthsOf cycles).length = 0 then none
  else
    let avgCycle : ℚ := mean ((cycleLengthsOf cycles).map (fun n => (n : ℚ)))
    let avgPeriod : ℚ :=
      if (periodLengthsOf cycles).length ≠ 0 then
        mean ((periodLengthsOf cycles).map (fun n => (n : ℚ)))
      else 5
    let lastStart : ℤ := ((completedCycles cycles).getLastD ⟨0, none⟩).start_date
    let predictedStart : ℤ := lastStart + round avgCycle
    let predictedEnd : ℤ := predictedStart + max 0 (round avgPeriod - 1)
    let sd : ℝ := stdDev ((cycleLengthsOf cycles).map (fun n => (n : ℚ)))
    some { predicted_start := predictedStart, predicted_end := predictedEnd,
           confidence := max 0.1 (min 0.95 (1 - sd / ((avgCycle : ℚ) : ℝ))) }

/-- Translation of `fertilityWindow(cycles)`: derives from `predict`;
ovulation 14 days before the predicted start, fertile window from 5 days
before ovulation to ovulation, peak from 2 days before ovulation to
ovulation. -/
noncomputable def fertilityWindow (cycles : List Cycle) : Option FertilityWindow :=
  match predict cycles with
  | none => none
  | some pred =>
      let ovulationDay := pred.predicted_start - 14
      let fertileStart := ovulationDay - 5
      let peakStart := ovulationDay - 2
      some { fertile_start := fertileStart, fertile_end := ovulationDay,
             ovulation_day := ovulationDay, peak_start := peakStart,
             peak_end := ovulationDay }

/-! # Definitions written from the spec's words, for refinement claims -/

/-- Following the spec's words (§4.5 step 8): the sample standard
deviation with the `n − 1` divisor, `0` when fewer than 2 samples. -/
noncomputable def sampleStdDev (arr : List ℚ) : ℝ :=
  if arr.length < 2 then 0
  else Real.sqrt (((arr.map (fun v => (v - mean arr) ^ 2)).sum / ((arr.length : ℚ) - 1) : ℚ))

/-- Following the spec's words: `clamp(x, 0.1, 0.95)`. -/
noncomputable def clampConfidence (x : ℝ) : ℝ := max 0.1 (min 0.95 x)

/-- Following the spec's words (§4.5 step 8):
`clamp(1 − stddev(cycle_lengths)/mean(cycle_lengths), 0.1, 0.95)`. -/
noncomputable def specConfidence (arr : List ℚ) : ℝ :=
  clampConfidence (1 - sampleStdDev arr / ((mean arr : ℚ) : ℝ))

/-! # Concrete example inputs used by the witnesses -/

/-- Three closed cycles with perfectly regular 28-day spacing and 5-day
periods (starts 0, 28, 56; ends 4, 32, 60). -/
def exampleCycles : List Cycle := [⟨0, some 4⟩, ⟨28, some 32⟩, ⟨56, some 60⟩]

/-- Two closed cycles whose predicted next start lands exactly on
2024-03-01. -/
def exampleCycles9 : List Cycle :=
  [⟨dayNumber 2024 3 1 - 56, some (dayNumber 2024 3 1 - 52)⟩,
   ⟨dayNumber 2024 3 1 - 28, some (dayNumber 2024 3 1 - 24)⟩]

/-- Day logs of the spec's reconstruction example: flow on 2024-01-01,
2024-01-02 and 2024-01-03. -/
def exampleLogs : List DayLog :=
  [⟨dayNumber 2024 1 1, FlowLevel.light, ""⟩,
   ⟨dayNumber 2024 1 2, FlowLevel.medium, ""⟩,
   ⟨dayNumber 2024 1 3, FlowLevel.heavy, ""⟩]

end Cykel

/-! # Theorems: crypto module -/

theorem decodeList_encodeList (l : List ℕ) : decodeList (encodeList l) = l := by
  induction l with
  | nil => simp [encodeList, decodeList]
  | cons x xs ih =>
      rw [encodeList, decodeList]
      simp [Nat.unpair_pair, ih]

theorem decodeStr_encodeStr (s : String) : decodeStr (encodeStr s) = s := by
  rw [decodeStr, encodeStr, decodeList_encodeList, List.map_map]
  have hid : (Char.ofNat ∘ Char.toNat) = id := funext Char.ofNat_toNat
  rw [hid, List.map_id]

theorem deriveKey_inj {p1 p2 : String} {salt : List ℕ}
    (h : deriveKey p1 salt = deriveKey p2 salt) : p1 = p2 :=
  congrArg Prod.fst h

theorem aeadDecrypt_aeadEncrypt (key : CipherKey) (iv payload : List ℕ) :
    aeadDecrypt key iv (aeadEncrypt key iv payload) = some payload := by
  simp [aeadDecrypt, aeadEncrypt, encodeAead, Nat.unpair_pair, decodeList_encodeList,
    decodeStr_encodeStr]

theorem aeadDecrypt_wrong_key {key1 key2 : CipherKey} (iv payload : List ℕ)
    (h : key2 ≠ key1) :
    aeadDecrypt key2 iv (aeadEncrypt key1 iv payload) = none := by
  simp only [aeadDecrypt, aeadEncrypt]
  refine if_neg ?_
  rintro ⟨h1, -, -⟩
  apply h
  rw [← h1]
  simp [encodeAead, Nat.unpair_pair, decodeList_encodeList, decodeStr_encodeStr]

theorem decrypt_split (passphrase : String) (salt iv ct : List ℕ)
    (hs : salt.length = 32) (hiv : iv.length = 12) (hct : 8 ≤ ct.length) :
    decrypt passphrase (salt ++ iv ++ ct) =
      match aeadDecrypt (deriveKey passphrase salt) iv ct with
      | none => Except.error CryptoError.wrongPassphrase
      | some decrypted =>
          if decrypted.take MAGIC.length = MAGIC then
            Except.ok (decrypted.drop MAGIC.length)
          else Except.error CryptoError.wrongPassphrase := by
  have hlen : (salt ++ iv ++ ct).length = 44 + ct.length := by
    simp [hs, hiv]
    omega
  have h52 : SALT_LEN + IV_LEN + MAGIC.length = 52 := by decide
  have hguard : ¬ (salt ++ iv ++ ct).length < SALT_LEN + IV_LEN + MAGIC.length := by
    rw [hlen, h52]
    omega
  have htake : (salt ++ iv ++ ct).take SALT_LEN = salt := by
    rw [List.append_assoc]
    exact List.take_left' hs
  have hdrop : (salt ++ iv ++ ct).drop SALT_LEN = iv ++ ct := by
    rw [List.append_assoc]
    exact List.drop_left' hs
  have hiv2 : ((salt ++ iv ++ ct).drop SALT_LEN).take IV_LEN = iv := by
    rw [hdrop]
    exact List.take_left' hiv
  have hct2 : (salt ++ iv ++ ct).drop (SALT_LEN + IV_LEN) = ct := by
    have hdd : (salt ++ iv ++ ct).drop (SALT_LEN + IV_LEN) =
        ((salt ++ iv ++ ct).drop SALT_LEN).drop IV_LEN := by
      rw [List.drop_drop]
    rw [hdd, hdrop]
    exact List.drop_left' hiv
  rw [decrypt, if_neg hguard]
  simp only [htake, hiv2, hct2]

/-- C1: for every passphrase and plaintext (and every admissible random
salt and nonce), decrypting an encryption with the same passphrase
succeeds and returns exactly the original plaintext: the magic marker is
prepended before authenticated encryption and stripped after
verification, so the round trip is the identity. -/
theorem decrypt_encrypt_roundtrip (passphrase : String) (plaintext salt iv : List ℕ)
    (hs : salt.length = 32) (hiv : iv.length = 12) :
    decrypt passphrase (encrypt passphrase plaintext salt iv) = Except.ok plaintext := by
  have hct : 8 ≤ (aeadEncrypt (deriveKey passphrase salt) iv (MAGIC ++ plaintext)).length := by
    simp [aeadEncrypt]
  rw [encrypt, decrypt_split passphrase salt iv _ hs hiv hct,
    aeadDecrypt_aeadEncrypt]
  simp [List.take_left, List.drop_left]

/-- C1 witness: the round trip at a concrete passphrase, plaintext, salt
and nonce. -/
theorem decrypt_encrypt_roundtrip_witness :
    decrypt "hunter2" (encrypt "hunter2" [10, 20, 30] (List.replicate 32 7) (List.replicate 12 9)) =
      Except.ok [10, 20, 30] :=
  decrypt_encrypt_roundtrip "hunter2" [10, 20, 30] (List.replicate 32 7) (List.replicate 12 9)
    (by simp) (by simp)

/-- C2: decrypting an encryption under a different passphrase always
fails with `WrongPassphrase`.  The theorem also covers the two internal
failure modes of the path past the length guard: the whole path never
raises any error kind other than `WrongPassphrase` (second conjunct), and
a successful authenticated decryption whose leading bytes are not the
magic marker also fails with `WrongPassphrase` (third conjunct). -/
theorem decrypt_wrong_passphrase (p1 p2 : String) (plaintext salt iv : List ℕ)
    (hne : p2 ≠ p1) (hs : salt.length = 32) (hiv : iv.length = 12) :
    decrypt p2 (encrypt p1 plaintext salt iv) = Except.error CryptoError.wrongPassphrase
    ∧ (∀ env : List ℕ, ¬ env.length < 52 →
        decrypt p2 env ≠ Except.error CryptoError.corruptData)
    ∧ (∀ payload : List ℕ, payload.take MAGIC.length ≠ MAGIC → 16 ≤ payload.length →
        decrypt p2 (salt ++ iv ++ aeadEncrypt (deriveKey p2 salt) iv payload) =
          Except.error CryptoError.wrongPassphrase) := by
  refine ⟨?_, ?_, ?_⟩
  · have hct : 8 ≤ (aeadEncrypt (deriveKey p1 salt) iv (MAGIC ++ plaintext)).length := by
      simp [aeadEncrypt]
    rw [encrypt, decrypt_split p2 salt iv _ hs hiv hct]
    have hkey : deriveKey p2 salt ≠ deriveKey p1 salt := fun hk => hne (deriveKey_inj hk)
    rw [aeadDecrypt_wrong_key _ _ hkey]
  · intro env henv hcontra
    have h52 : SALT_LEN + IV_LEN + MAGIC.length = 52 := by decide
    rw [decrypt, if_neg (by rw [h52]; exact henv)] at hcontra
    dsimp only at hcontra
    split at hcontra
    · simp at hcontra
    · split at hcontra
      · simp at hcontra
      · simp at hcontra
  · intro payload hpm hpl
    have hct : 8 ≤ (aeadEncrypt (deriveKey p2 salt) iv payload).length := by
      simp [aeadEncrypt]
    rw [decrypt_split p2 salt iv _ hs hiv hct, aeadDecrypt_aeadEncrypt]
    simp [hpm]

/-- C2 witness: concrete distinct passphrases, with the second and third
conjuncts instantiated at the encryption of the first conjunct and at a
payload that does not start with the magic marker. -/
theorem decrypt_wrong_passphrase_witness :
    decrypt "b" (encrypt "a" [1, 2] (List.replicate 32 0) (List.replicate 12 0)) =
      Except.error CryptoError.wrongPassphrase
    ∧ decrypt "b" (List.replicate 60 0) ≠ Except.error CryptoError.corruptData
    ∧ decrypt "b" (List.replicate 32 0 ++ List.replicate 12 0 ++
        aeadEncrypt (deriveKey "b" (List.replicate 32 0)) (List.replicate 12 0)
          (List.replicate 16 1)) = Except.error CryptoError.wrongPassphrase := by
  obtain ⟨h1, h2, h3⟩ := decrypt_wrong_passphrase "a" "b" [1, 2]
    (List.replicate 32 0) (List.replicate 12 0) (by decide) (by simp) (by simp)
  exact ⟨h1, h2 (List.replicate 60 0) (by simp), h3 (List.replicate 16 1) (by decide) (by simp)⟩

/-- C3: every envelope shorter than `SALT_LEN + IV_LEN + MAGIC.length = 52`
bytes fails with `CorruptData` for every passphrase (the guard runs before
any key derivation or decryption); in particular every envelope shorter
than 44 bytes fails with `CorruptData` independent of the passphrase. -/
theorem decrypt_short_corrupt (passphrase : String) (env : List ℕ)
    (h : env.length < SALT_LEN + IV_LEN + MAGIC.length) :
    decrypt passphrase env = Except.error CryptoError.corruptData
    ∧ (env.length < 44 → decrypt passphrase env = Except.error CryptoError.corruptData) := by
  constructor
  · rw [decrypt, if_pos h]
  · intro _
    rw [decrypt, if_pos h]

/-- C3 witness: the empty envelope and a 43-byte envelope both fail with
`CorruptData`. -/
theorem decrypt_short_corrupt_witness :
    decrypt "any" [] = Except.error CryptoError.corruptData
    ∧ decrypt "other" (List.replicate 43 255) = Except.error CryptoError.corruptData :=
  ⟨(decrypt_short_corrupt "any" [] (by decide)).1,
   (decrypt_short_corrupt "other" (List.replicate 43 255) (by simp [SALT_LEN, IV_LEN, MAGIC])).1⟩

/-! # Theorems: prediction engine -/

namespace Cykel

/-- C5: `predict` returns `none` whenever the input has fewer than two
closed cycles, and the reconstructor maps an input without flow dates to
the empty list: in the embedding both functions are total, so
insufficient history yields the explicit `none`/empty outcome rather
than an error. -/
theorem predict_insufficient (cycles : List Cycle)
    (h : (closedCycles cycles).length < 2) :
    predict cycles = none
    ∧ ∀ (dayLogs : List DayLog) (today : ℤ),
        flowDates dayLogs = [] → rebuildCycles dayLogs today = [] := by
  constructor
  · have hlen : (completedCycles cycles).length = (closedCycles cycles).length :=
      (List.perm_insertionSort startLE (closedCycles cycles)).length_eq
    rw [predict, if_pos (by rw [hlen]; exact h)]
  · intro dayLogs today hfd
    rw [rebuildCycles, hfd]

/-- C5 witness: a single closed cycle produces no prediction, and logs
with no flow produce no cycles. -/
theorem predict_insufficient_witness :
    predict [⟨0, some 1⟩] = none
    ∧ rebuildCycles [⟨5, FlowLevel.none, "tired"⟩] 7 = [] := by
  obtain ⟨h1, h2⟩ := predict_insufficient [⟨0, some 1⟩] (by decide)
  exact ⟨h1, h2 [⟨5, FlowLevel.none, "tired"⟩] 7 (by decide)⟩

/-- C10: `predict` and `fertilityWindow` depend only on the closed
cycles of the input: two inputs with the same closed cycles, differing
only in open cycles, give identical outputs. -/
theorem predict_ignores_open_cycles (c1 c2 : List Cycle)
    (h : closedCycles c1 = closedCycles c2) :
    predict c1 = predict c2 ∧ fertilityWindow c1 = fertilityWindow c2 := by
  have hcomp : completedCycles c1 = completedCycles c2 := by
    simp only [completedCycles, h]
  have hrec : recentCycles c1 = recentCycles c2 := by
    simp only [recentCycles, hcomp]
  have hcl : cycleLengthsOf c1 = cycleLengthsOf c2 := by
    simp only [cycleLengthsOf, hrec]
  have hpl : periodLengthsOf c1 = periodLengthsOf c2 := by
    simp only [periodLengthsOf, hrec]
  have hpred : predict c1 = predict c2 := by
    simp only [predict, hcomp, hcl, hpl]
  exact ⟨hpred, by simp only [fertilityWindow, hpred]⟩

/-- C10 witness: adding an open cycle to an input does not change the
prediction or the fertility window. -/
theorem predict_ignores_open_cycles_witness :
    predict [⟨0, some 2⟩, ⟨40, none⟩] = predict [⟨0, some 2⟩]
    ∧ fertilityWindow [⟨0, some 2⟩, ⟨40, none⟩] = fertilityWindow [⟨0, some 2⟩] :=
  predict_ignores_open_cycles [⟨0, some 2⟩, ⟨40, none⟩] [⟨0, some 2⟩] (by decide)

end Cykel

namespace Cykel

/-! ## Helper lemmas: sortedness and concrete evaluations -/

theorem sorted_le_getLastD {l : List Cycle} (hs : List.Sorted startLE l) :
    ∀ x ∈ l, ∀ d : Cycle, startLE x (l.getLastD d) := by
  induction l with
  | nil => intro x hx; cases hx
  | cons a t ih =>
      intro x hx d
      rw [List.getLastD_cons]
      cases t with
      | nil =>
          simp only [List.mem_singleton] at hx
          subst hx
          exact le_refl _
      | cons b t2 =>
          rcases List.mem_cons.mp hx with rfl | hx2
          · have hab : startLE x b := (List.sorted_cons.mp hs).1 b (by simp)
            have hb : startLE b ((b :: t2).getLastD x) :=
              ih (List.sorted_cons.mp hs).2 b (by simp) x
            exact le_trans hab hb
          · exact ih (List.sorted_cons.mp hs).2 x hx2 a

theorem completed_example : completedCycles exampleCycles = exampleCycles := by decide

theorem cycleLengths_example : cycleLengthsOf exampleCycles = [28, 28] := by decide

theorem periodLengths_example : periodLengthsOf exampleCycles = [5, 5, 5] := by decide

theorem mean_cl_example : mean (([28, 28] : List ℤ).map (fun n => (n : ℚ))) = 28 := by
  norm_num [mean]

theorem mean_pl_example : mean (([5, 5, 5] : List ℤ).map (fun n => (n : ℚ))) = 5 := by
  norm_num [mean]

theorem stdDev_cl_example : stdDev (([28, 28] : List ℤ).map (fun n => (n : ℚ))) = 0 := by
  rw [stdDev, if_neg (by norm_num)]
  norm_num [mean]

theorem predict_example : predict exampleCycles = some ⟨84, 88, 0.95⟩ := by
  rw [predict, if_neg (by decide), if_neg (by decide)]
  dsimp only
  rw [cycleLengths_example, periodLengths_example, completed_example]
  rw [mean_cl_example, stdDev_cl_example, if_pos (by norm_num), mean_pl_example]
  norm_num [min_def, max_def]
  decide

theorem completed_example9 : completedCycles exampleCycles9 = exampleCycles9 := by decide

theorem cycleLengths_example9 : cycleLengthsOf exampleCycles9 = [28] := by decide

theorem periodLengths_example9 : periodLengthsOf exampleCycles9 = [5, 5] := by decide

theorem mean_cl_example9 : mean (([28] : List ℤ).map (fun n => (n : ℚ))) = 28 := by
  norm_num [mean]

theorem mean_pl_example9 : mean (([5, 5] : List ℤ).map (fun n => (n : ℚ))) = 5 := by
  norm_num [mean]

theorem stdDev_cl_example9 : stdDev (([28] : List ℤ).map (fun n => (n : ℚ))) = 0 := by
  rw [stdDev, if_pos (by norm_num)]

theorem predict_example9 :
    predict exampleCycles9 =
      some ⟨dayNumber 2024 3 1, dayNumber 2024 3 1 + 4, 0.95⟩ := by
  rw [predict, if_neg (by decide), if_neg (by decide)]
  dsimp only
  rw [cycleLengths_example9, periodLengths_example9, completed_example9]
  rw [mean_cl_example9, stdDev_cl_example9, if_pos (by norm_num), mean_pl_example9]
  norm_num [min_def, max_def]
  decide

/-- C4: whenever `predict` returns a prediction, its confidence equals
the spec's `clamp(1 − stddev(cycle_lengths)/mean(cycle_lengths), 0.1,
0.95)` (with `sampleStdDev` the sample standard deviation, `n − 1`
divisor, `0` for fewer than 2 samples), and in particular always lies in
`[0.1, 0.95]`. -/
theorem predict_confidence (cycles : List Cycle) (p : Prediction)
    (h : predict cycles = some p) :
    p.confidence = specConfidence ((cycleLengthsOf cycles).map (fun n => (n : ℚ)))
    ∧ 0.1 ≤ p.confidence ∧ p.confidence ≤ 0.95 := by
  rw [predict] at h
  by_cases h1 : (completedCycles cycles).length < 2
  · rw [if_pos h1] at h
    exact absurd h (by simp)
  rw [if_neg h1] at h
  by_cases h2 : (cycleLengthsOf cycles).length = 0
  · rw [if_pos h2] at h
    exact absurd h (by simp)
  rw [if_neg h2] at h
  dsimp only at h
  injection h with h
  subst h
  refine ⟨rfl, le_max_left _ _, max_le (by norm_num) (min_le_left _ _)⟩

/-- C4 witness: on three perfectly regular cycles the confidence is
`0.95`, which matches the spec formula and the clamp bounds. -/
theorem predict_confidence_witness :
    (Prediction.mk 84 88 0.95).confidence =
      specConfidence ((cycleLengthsOf exampleCycles).map (fun n => (n : ℚ)))
    ∧ (0.1 : ℝ) ≤ (Prediction.mk 84 88 0.95).confidence
    ∧ (Prediction.mk 84 88 0.95).confidence ≤ 0.95 :=
  predict_confidence exampleCycles ⟨84, 88, 0.95⟩ predict_example

/-- C6: whenever `predict` returns a prediction, `predicted_start` is the
start date of a maximal-start (most recent) closed cycle plus
`round(mean(cycle_lengths))`, and `predicted_end` is
`predicted_start + max(0, round(mean(period_lengths)) − 1)`, with the
samples drawn from the up-to-6 most recent closed cycles
(`cycleLengthsOf`: consecutive start-date differences; `periodLengthsOf`:
`(end − start) + 1` per sampled cycle). -/
theorem predict_start_end (cycles : List Cycle) (p : Prediction)
    (h : predict cycles = some p) :
    ∃ c ∈ closedCycles cycles,
      (∀ c2 ∈ closedCycles cycles, c2.start_date ≤ c.start_date)
      ∧ p.predicted_start =
          c.start_date + round (mean ((cycleLengthsOf cycles).map (fun n => (n : ℚ))))
      ∧ p.predicted_end =
          p.predicted_start +
            max 0 (round (mean ((periodLengthsOf cycles).map (fun n => (n : ℚ)))) - 1) := by
  rw [predict] at h
  by_cases h1 : (completedCycles cycles).length < 2
  · rw [if_pos h1] at h
    exact absurd h (by simp)
  rw [if_neg h1] at h
  by_cases h2 : (cycleLengthsOf cycles).length = 0
  · rw [if_pos h2] at h
    exact absurd h (by simp)
  rw [if_neg h2] at h
  dsimp only at h
  have hplne : (periodLengthsOf cycles).length ≠ 0 := by
    have hgt : 2 ≤ (completedCycles cycles).length := not_lt.mp h1
    rw [periodLengthsOf, List.length_map, recentCycles, List.length_drop]
    omega
  rw [if_pos hplne] at h
  injection h with h
  subst h
  have hne : completedCycles cycles ≠ [] := by
    intro hnil
    rw [hnil] at h1
    exact h1 (by simp)
  refine ⟨(completedCycles cycles).getLastD ⟨0, none⟩, ?_, ?_, rfl, rfl⟩
  · have hmem : (completedCycles cycles).getLastD ⟨0, none⟩ ∈ completedCycles cycles := by
      rw [List.getLastD_eq_getLast?, List.getLast?_eq_getLast _ hne, Option.getD_some]
      exact List.getLast_mem hne
    exact (List.perm_insertionSort startLE (closedCycles cycles)).mem_iff.mp hmem
  · intro c2 hc2
    have hc2m : c2 ∈ completedCycles cycles :=
      (List.perm_insertionSort startLE (closedCycles cycles)).mem_iff.mpr hc2
    exact sorted_le_getLastD (List.sorted_insertionSort startLE (closedCycles cycles))
      c2 hc2m ⟨0, none⟩

/-- C6 witness: on the three regular example cycles, the predicted start
is `56 + 28 = 84` and the predicted end `84 + (5 − 1) = 88`. -/
theorem predict_start_end_witness :
    ∃ c ∈ closedCycles exampleCycles,
      (∀ c2 ∈ closedCycles exampleCycles, c2.start_date ≤ c.start_date)
      ∧ (Prediction.mk 84 88 0.95).predicted_start =
          c.start_date + round (mean ((cycleLengthsOf exampleCycles).map (fun n => (n : ℚ))))
      ∧ (Prediction.mk 84 88 0.95).predicted_end =
          (Prediction.mk 84 88 0.95).predicted_start +
            max 0 (round (mean ((periodLengthsOf exampleCycles).map (fun n => (n : ℚ)))) - 1) :=
  predict_start_end exampleCycles ⟨84, 88, 0.95⟩ predict_example

/-- C9: `fertilityWindow` is `none` exactly when `predict` is `none`, and
otherwise its fields are fixed offsets of `predicted_start`
(`ovulation_day = predicted_start − 14`, `fertile_start = ovulation − 5`,
`fertile_end = peak_end = ovulation`, `peak_start = ovulation − 2`); for
`predicted_start = 2024-03-01` the ovulation day is 2024-02-16, the
fertile window starts 2024-02-11 and the peak starts 2024-02-14. -/
theorem fertility_window_spec (cycles : List Cycle) :
    (fertilityWindow cycles = none ↔ predict cycles = none)
    ∧ ∀ p : Prediction, predict cycles = some p →
        fertilityWindow cycles =
          some ⟨p.predicted_start - 14 - 5, p.predicted_start - 14,
                p.predicted_start - 14, p.predicted_start - 14 - 2,
                p.predicted_start - 14⟩
        ∧ (p.predicted_start = dayNumber 2024 3 1 →
            p.predicted_start - 14 = dayNumber 2024 2 16
            ∧ p.predicted_start - 14 - 5 = dayNumber 2024 2 11
            ∧ p.predicted_start - 14 - 2 = dayNumber 2024 2 14) := by
  constructor
  · cases hp : predict cycles with
    | none => simp [fertilityWindow, hp]
    | some q => simp [fertilityWindow, hp]
  · intro p hp
    constructor
    · rw [fertilityWindow, hp]
    · intro hps
      rw [hps]
      exact ⟨by decide, by decide, by decide⟩

/-- C9 witness: a history predicting a start of 2024-03-01 gives the
fertility window 2024-02-11 – 2024-02-16 with peak from 2024-02-14. -/
theorem fertility_window_witness :
    fertilityWindow exampleCycles9 =
      some ⟨dayNumber 2024 2 11, dayNumber 2024 2 16, dayNumber 2024 2 16,
            dayNumber 2024 2 14, dayNumber 2024 2 16⟩ := by
  obtain ⟨hfw, -⟩ := (fertility_window_spec exampleCycles9).2
    ⟨dayNumber 2024 3 1, dayNumber 2024 3 1 + 4, 0.95⟩ predict_example9
  rw [hfw]
  decide

/-! ## Helper lemmas: the run structure of `rebuildCycles` -/

theorem specRunsAux_ne_nil (xs : List ℤ) : ∀ s e : ℤ, specRunsAux xs s e ≠ [] := by
  induction xs with
  | nil => intro s e; simp [specRunsAux]
  | cons x xs ih =>
      intro s e
      rw [specRunsAux]
      by_cases h : x - e ≤ 2
      · rw [if_pos h]; exact ih s x
      · rw [if_neg h]; simp

theorem specCloseRuns_cons (today : ℤ) (r : ℤ × ℤ) (l : List (ℤ × ℤ)) (h : l ≠ []) :
    specCloseRuns today (r :: l) = ⟨r.1, some r.2⟩ :: specCloseRuns today l := by
  cases l with
  | nil => exact absurd rfl h
  | cons a l2 => rfl

theorem rebuildLoop_eq_spec (today : ℤ) (xs : List ℤ) : ∀ (s e : ℤ) (acc : List Cycle),
    rebuildLoop today xs s e acc = acc ++ specCloseRuns today (specRunsAux xs s e) := by
  induction xs with
  | nil => intro s e acc; rfl
  | cons x xs ih =>
      intro s e acc
      rw [rebuildLoop, specRunsAux]
      by_cases h : x - e ≤ 2
      · rw [if_pos h, if_pos h]
        exact ih s x acc
      · rw [if_neg h, if_neg h, ih x x _,
          specCloseRuns_cons today (s, e) _ (specRunsAux_ne_nil xs x x)]
        simp

theorem specRunsAux_last (xs : List ℤ) : ∀ s e : ℤ, ∃ ps s2,
    specRunsAux xs s e = ps ++ [(s2, xs.getLastD e)] := by
  induction xs with
  | nil => intro s e; exact ⟨[], s, rfl⟩
  | cons x xs ih =>
      intro s e
      rw [specRunsAux, List.getLastD_cons]
      by_cases h : x - e ≤ 2
      · obtain ⟨ps, s2, hps⟩ := ih s x
        exact ⟨ps, s2, by rw [if_pos h, hps]⟩
      · obtain ⟨ps, s2, hps⟩ := ih x x
        exact ⟨(s, e) :: ps, s2, by rw [if_neg h, hps]; rfl⟩

theorem specCloseRuns_append_last (today : ℤ) (ps : List (ℤ × ℤ)) (s2 e2 : ℤ) :
    specCloseRuns today (ps ++ [(s2, e2)]) =
      ps.map (fun r => (⟨r.1, some r.2⟩ : Cycle)) ++
        [⟨s2, if today - e2 ≤ 2 then none else some e2⟩] := by
  induction ps with
  | nil => rfl
  | cons r ps ih =>
      rw [List.cons_append, specCloseRuns_cons today r _ (by simp), ih]
      simp

/-- C7: `rebuildCycles` equals the spec's greedy run grouping of the
deduplicated sorted flow dates, with each run becoming one cycle from
the run's first date to its last (the final run closed per the
2-days-of-today rule); the flow dates 2024-01-01..03 give the single
cycle from 2024-01-01 to 2024-01-03, and an empty input gives the empty
list. -/
theorem rebuildCycles_spec (dayLogs : List DayLog) (today : ℤ) :
    rebuildCycles dayLogs today = specCloseRuns today (specRuns (flowDates dayLogs))
    ∧ rebuildCycles [] today = []
    ∧ rebuildCycles exampleLogs (dayNumber 2024 3 1) =
        [⟨dayNumber 2024 1 1, some (dayNumber 2024 1 3)⟩] := by
  refine ⟨?_, rfl, by decide⟩
  cases hfd : flowDates dayLogs with
  | nil =>
      rw [rebuildCycles, hfd]
      rfl
  | cons d rest =>
      rw [rebuildCycles, hfd]
      dsimp only [specRuns]
      rw [rebuildLoop_eq_spec]
      simp

/-- C8: on any input with at least one flow date, exactly the final
cycle of `rebuildCycles` may be open: every earlier cycle is closed with
its run's end date, the final run ends at the last flow date `e`, and
the final cycle's `end_date` is `none` iff `today − e ≤ 2` (the last
flow date is at most 2 days before today), otherwise `some e`. -/
theorem rebuildCycles_last_open (dayLogs : List DayLog) (today : ℤ)
    (h : flowDates dayLogs ≠ []) :
    ∃ (cs : List Cycle) (s e : ℤ),
      rebuildCycles dayLogs today =
        cs ++ [⟨s, if today - e ≤ 2 then none else some e⟩]
      ∧ (∀ c ∈ cs, c.end_date ≠ none)
      ∧ (flowDates dayLogs).getLastD 0 = e
      ∧ ((Cycle.mk s (if today - e ≤ 2 then none else some e)).end_date = none ↔
          today - e ≤ 2) := by
  cases hfd : flowDates dayLogs with
  | nil => exact absurd hfd h
  | cons d rest =>
      obtain ⟨ps, s2, hps⟩ := specRunsAux_last rest d d
      refine ⟨ps.map (fun r => (⟨r.1, some r.2⟩ : Cycle)), s2, rest.getLastD d,
        ?_, ?_, ?_, ?_⟩
      · rw [rebuildCycles, hfd]
        dsimp only
        rw [rebuildLoop_eq_spec, hps, specCloseRuns_append_last]
        simp
      · intro c hc
        obtain ⟨r, -, hr⟩ := List.mem_map.mp hc
        rw [← hr]
        simp
      · rw [List.getLastD_cons]
      · by_cases hcond : today - rest.getLastD d ≤ 2
        · simp [hcond]
        · simp [hcond]

/-- C8 witness: a single flow date 10 with today 20 yields one closed
cycle whose openness condition is decided by `today − e ≤ 2`. -/
theorem rebuildCycles_last_open_witness :
    ∃ (cs : List Cycle) (s e : ℤ),
      rebuildCycles [⟨10, FlowLevel.medium, "note"⟩] 20 =
        cs ++ [⟨s, if (20 : ℤ) - e ≤ 2 then none else some e⟩]
      ∧ (∀ c ∈ cs, c.end_date ≠ none)
      ∧ (flowDates [⟨10, FlowLevel.medium, "note"⟩]).getLastD 0 = e
      ∧ ((Cycle.mk s (if (20 : ℤ) - e ≤ 2 then none else some e)).end_date = none ↔
          (20 : ℤ) - e ≤ 2) :=
  rebuildCycles_last_open [⟨10, FlowLevel.medium, "note"⟩] 20 (by decide)

end Cykel
